import Mathlib

/-!
# Verification of the fuzzy title-matching pipeline
# (scripts/bulk_import_hellofresh/matcher.py)

Shallow embedding of the matcher module.  Modelling conventions:

* Python `float` arithmetic on scores is modelled by exact rational
  arithmetic (`ℚ`); all scores here are ratios of small integers.
* Python `set` values are modelled canonically: keyword sets as
  duplicate-free `List String`, integer index sets as ascending
  `List ℕ`.  CPython iterates a set in hash-table order, which is
  unspecified (insertion-order dependent, and varying between runs
  under string-hash randomization); the ascending enumeration is only
  a canonical choice, harmless for membership, count and threshold
  facts.  Where a property would depend on the iteration order — the
  relative order of equal-score candidates in the prefilter — the
  enumeration is made an explicit parameter (`prefilter_with_order`)
  and results are proved for every admissible (duplicate-free)
  enumeration of the candidate set.
* The Anthropic text-completion collaborator is modelled as an oracle
  `ℕ → LlmOutcome` giving, for the n-th API call of a run, either a
  raised exception (transport failure), a response body that fails JSON
  parsing after code-fence stripping, or a successfully parsed list of
  JSON objects.  This quantifies over every possible response sequence.
* JSON objects returned by the collaborator are restricted to records
  with the five expected keys (each possibly absent/null) — `RawMatch`.
* `print` calls and the `progress_callback` have no effect on the
  returned data and are omitted.
-/

attribute [local semireducible] Rat.add Rat.mul Rat.inv Rat.sub

deriving instance DecidableEq for Except

/-- A sitemap recipe entry: `{"name": ..., "url": ...}`. -/
structure Recipe where
  name : String
  url : String
deriving DecidableEq

/-- A match-result dict as it flows through the pipeline: the JSON object
shape `{"index", "scanned", "matched_url", "matched_name", "confidence",
"error"}` with every field optional (`none` models JSON null / absent key). -/
structure RawMatch where
  index : Option ℤ := none
  scanned : Option String := none
  matched_url : Option String := none
  matched_name : Option String := none
  confidence : Option String := none
  error : Option String := none
deriving DecidableEq

/-- Outcome of one call to the text-completion collaborator:
the call raises (transport failure), the returned text fails JSON
parsing after code-fence stripping, or it parses to a list of objects. -/
inductive LlmOutcome where
  | raises (msg : String)
  | parseFail
  | parsed (ms : List RawMatch)
deriving DecidableEq

/-- `true` exactly when the outcome is a successfully parsed response. -/
def LlmOutcome.isParsed : LlmOutcome → Bool
  | .parsed _ => true
  | _ => false

/-- Python word character (`\w` of `re`, restricted to ASCII, which is
exhaustive for the title alphabet): letters, digits, underscore. -/
def isWordChar (c : Char) : Bool :=
  c.isAlphanum || c = '_'

/-- Python `\s` / `str.split()` whitespace (ASCII part). -/
def pyIsSpace (c : Char) : Bool :=
  c = ' ' || c = '\t' || c = '\n' || c = '\r' || c = '\x0b' || c = '\x0c'

/-- `matchesPrefix w s` returns `some rest` when `w` is a prefix of `s`,
with `rest` the remaining characters. -/
def matchesPrefix : List Char → List Char → Option (List Char)
  | [], s => some s
  | _ :: _, [] => none
  | c :: w, d :: s => if d = c then matchesPrefix w s else none

/-- One pass of `re.sub(pattern, "", s)` for a literal pattern `w`,
optionally anchored by `\b` word boundaries on both sides (`bounded`);
all noise patterns of the source start and end with word characters, so
the boundary test reduces to the neighbouring character not being a word
character (or the string edge).  `prev` is the original character
preceding the scan position; `fuel` bounds recursion (each step consumes
at least one character, so `s.length + 1` is always sufficient). -/
def subPatternAux (w : List Char) (bounded : Bool) :
    ℕ → Option Char → List Char → List Char
  | 0, _, s => s
  | _ + 1, _, [] => []
  | fuel + 1, prev, c :: rest =>
    match matchesPrefix w (c :: rest) with
    | some after =>
      if (!bounded || (match prev with
            | none => true
            | some p => !isWordChar p)) &&
         (!bounded || (match after with
            | [] => true
            | d :: _ => !isWordChar d)) then
        subPatternAux w bounded fuel (some (w.getLastD c)) after
      else
        c :: subPatternAux w bounded fuel (some c) rest
    | none => c :: subPatternAux w bounded fuel (some c) rest

/-- `re.sub(pattern, "", s)` for one noise pattern. -/
def subPattern (w : List Char) (bounded : Bool) (s : List Char) : List Char :=
  subPatternAux w bounded (s.length + 1) none s

/-- The source's `noise_patterns` list, in order: `\b`-bounded brand
words and literal OCR artifact characters. -/
def noisePatterns : List (List Char × Bool) :=
  [("hello".toList, true), ("fresh".toList, true), ("grab your".toList, true),
   ("meal kit".toList, true), ("meat kit".toList, true), ("kit".toList, true),
   ("@®".toList, false), ("®".toList, false), ("@".toList, false)]

/-- Apply every noise-pattern substitution in source order. -/
def applyNoise (s : List Char) : List Char :=
  noisePatterns.foldl (fun acc p => subPattern p.1 p.2 acc) s

/-- `re.sub(r"[^a-z0-9\s]", " ", s)`: replace every character that is
not a lowercase letter, digit or whitespace with a space. -/
def stripPunct (c : Char) : Char :=
  if ('a' ≤ c && c ≤ 'z') || ('0' ≤ c && c ≤ '9') || pyIsSpace c then c else ' '

/-- `str.split()`: split on whitespace runs, discarding empty pieces.
`cur` accumulates the current word in reverse. -/
def pySplitAux (cur : List Char) : List Char → List (List Char)
  | [] => if cur.isEmpty then [] else [cur.reverse]
  | c :: rest =>
    if pyIsSpace c then
      if cur.isEmpty then pySplitAux [] rest else cur.reverse :: pySplitAux [] rest
    else
      pySplitAux (c :: cur) rest

/-- `str.split()` on a character list. -/
def pySplit (s : List Char) : List (List Char) :=
  pySplitAux [] s

/-- `normalize_title`: lowercase, strip noise patterns, replace
non-alphanumeric characters by spaces, collapse whitespace, trim. -/
def normalize_title (title : String) : String :=
  String.intercalate " "
    ((pySplit ((applyNoise (title.data.map Char.toLower)).map stripPunct)).map
      (fun w => String.mk w))

/-- The source's `stop_words` set. -/
def stop_words : List String :=
  ["and", "with", "the", "for", "your"]

/-- `extract_keywords`: words of the normalized title with length ≥ 3
that are not stop words, as a set (modelled: duplicate-free list). -/
def extract_keywords (title : String) : List String :=
  (((pySplit (normalize_title title).data).map (fun w => String.mk w)).filter
    (fun w => 3 ≤ w.length && !(stop_words.contains w))).dedup

/-- `score_candidate`: F1 score (harmonic mean of keyword precision and
recall) of a candidate name against the scanned keyword set.  Python
float arithmetic is modelled exactly over `ℚ`. -/
def score_candidate (scanned_keywords : List String) (candidate_name : String) : ℚ :=
  let candidate_keywords := extract_keywords candidate_name
  if scanned_keywords.isEmpty || candidate_keywords.isEmpty then 0
  else
    let matched := scanned_keywords.filter (fun w => candidate_keywords.contains w)
    let precisionScore : ℚ := (matched.length : ℚ) / (scanned_keywords.length : ℚ)
    let recallScore : ℚ := (matched.length : ℚ) / (candidate_keywords.length : ℚ)
    if precisionScore + recallScore = 0 then 0
    else 2 * (precisionScore * recallScore) / (precisionScore + recallScore)

/-- Stable insertion (ascending by `key`): a new element goes after every
element whose key is ≤ its own.  Used to model Python's stable
`list.sort(key=...)`: `sortAscBy` processes the input left to right, so
elements with equal keys keep their original relative order. -/
def insertAscBy {α K : Type} [LinearOrder K] (key : α → K) (x : α) :
    List α → List α
  | [] => [x]
  | y :: ys => if key x < key y then x :: y :: ys else y :: insertAscBy key x ys

/-- Python `list.sort(key=...)` (stable, ascending). -/
def sortAscBy {α K : Type} [LinearOrder K] (key : α → K) (l : List α) : List α :=
  l.foldl (fun acc x => insertAscBy key x acc) []

/-- Stable insertion (descending by `key`): a new element goes after every
element whose key is ≥ its own. -/
def insertDescBy {α K : Type} [LinearOrder K] (key : α → K) (x : α) :
    List α → List α
  | [] => [x]
  | y :: ys => if key y < key x then x :: y :: ys else y :: insertDescBy key x ys

/-- Python `list.sort(key=..., reverse=True)` (stable, descending). -/
def sortDescBy {α K : Type} [LinearOrder K] (key : α → K) (l : List α) : List α :=
  l.foldl (fun acc x => insertDescBy key x acc) []

/-- The default recipe value used for (always in-range) list indexing. -/
def defRecipe : Recipe := ⟨"", ""⟩

/-- The inverted keyword index built by `build_keyword_index`, as the pure
lookup function of the catalog it indexes: `index[kw]` is the set of
positions of catalog entries whose name contains keyword `kw`, modelled as
the ascending list of those positions. -/
def build_index_pure (sitemap_recipes : List Recipe) : String → List ℕ :=
  fun kw =>
    (List.range sitemap_recipes.length).filter
      (fun i => (extract_keywords (sitemap_recipes.getD i defRecipe).name).contains kw)

/-- A catalog object reference: `ref` is an identity token distinguishing
distinct Python list objects (`is` comparison); `entries` is the value. -/
structure CatalogRef where
  ref : ℕ
  entries : List Recipe

/-- The module-level mutable cache: `_keyword_index` and
`_indexed_recipes` (the latter kept only as the identity token of the
list object it referenced). -/
structure MatcherState where
  _keyword_index : Option (String → List ℕ)
  _indexed_ref : Option ℕ

/-- `build_keyword_index`, with the global cache made explicit: on a
cache hit (same catalog object by identity, index present) the stored
index is returned unchanged; otherwise the index is rebuilt from the
supplied catalog and cached. -/
def build_keyword_index (st : MatcherState) (cat : CatalogRef) :
    (String → List ℕ) × MatcherState :=
  if st._indexed_ref = some cat.ref then
    match st._keyword_index with
    | some idx => (idx, st)
    | none =>
      let idx := build_index_pure cat.entries
      (idx, ⟨some idx, some cat.ref⟩)
  else
    let idx := build_index_pure cat.entries
    (idx, ⟨some idx, some cat.ref⟩)

/-- The candidate-index set of `prefilter_candidates`: the union of the
index entries of every query keyword.  This is a Python `set[int]`,
modelled here as the ascending duplicate-free list — a canonical
representative only: CPython's actual iteration order over this set is
hash-table order, driven by the (string-hash-randomized) iteration of
the keyword set, so no downstream ordering guarantee may rely on this
canonical order.  `prefilter_with_order` quantifies over all admissible
enumerations of this set. -/
def candidate_indices_from (idx : String → List ℕ) (kws : List String) : List ℕ :=
  sortAscBy (fun i => i) ((kws.map idx).flatten.dedup)

/-- `prefilter_candidates` with the keyword index passed explicitly
(the source obtains it from `build_keyword_index`; by the cache
invariant proved below it always equals `build_index_pure` of the same
catalog).  Scores every candidate position, keeps scores strictly above
the 0.1 threshold, stable-sorts descending by score and returns the top
`max_candidates` entries. -/
def prefilter_with_index (idx : String → List ℕ) (scanned_title : String)
    (sitemap_recipes : List Recipe) (max_candidates : ℕ) : List Recipe :=
  let scanned_keywords := extract_keywords scanned_title
  if scanned_keywords.isEmpty then []
  else
    let candidate_indices := candidate_indices_from idx scanned_keywords
    if candidate_indices.isEmpty then []
    else
      let scored :=
        (candidate_indices.map (fun i =>
          (score_candidate scanned_keywords (sitemap_recipes.getD i defRecipe).name,
           sitemap_recipes.getD i defRecipe))).filter
          (fun p => (1 : ℚ)/10 < p.1)
      let sorted := sortDescBy (fun p : ℚ × Recipe => p.1) scored
      (sorted.take max_candidates).map (fun p => p.2)

/-- `prefilter_candidates(scanned_title, sitemap_recipes, max_candidates)`. -/
def prefilter_candidates (scanned_title : String) (sitemap_recipes : List Recipe)
    (max_candidates : ℕ) : List Recipe :=
  prefilter_with_index (build_index_pure sitemap_recipes) scanned_title
    sitemap_recipes max_candidates

/-- `range(0, len(l), bs)` slicing of `l` into chunks of `bs` elements
(the last chunk may be shorter).  `fuel` makes the recursion structural;
`l.length` is always sufficient fuel when `0 < bs`. -/
def chunkListAux {α : Type} (bs : ℕ) : ℕ → List α → List (List α)
  | 0, _ => []
  | _ + 1, [] => []
  | fuel + 1, l => l.take bs :: chunkListAux bs fuel (l.drop bs)

/-- Slice a list into consecutive chunks of size `bs`. -/
def chunkList {α : Type} (bs : ℕ) (l : List α) : List (List α) :=
  chunkListAux bs l.length l

/-- The `MatchResult` dict synthesized for a title whose prefilter found
no candidates: 1-based index, null match, null confidence. -/
def nullMatchFor (i : ℕ) (title : String) : RawMatch :=
  { index := some ((i : ℤ) + 1), scanned := some title,
    matched_url := none, matched_name := none, confidence := none, error := none }

/-- The `MatchResult` dict synthesized for a title in a chunk whose
collaborator call raised: null match, null confidence, error string. -/
def errorMatchFor (i : ℕ) (title : String) (e : String) : RawMatch :=
  { index := some ((i : ℤ) + 1), scanned := some title,
    matched_url := none, matched_name := none, confidence := none, error := some e }

/-- `match_titles_batch`: one collaborator call.  A raised exception
propagates (`Except.error`); a response failing JSON parsing after
code-fence stripping is swallowed with a warning and yields `[]`;
otherwise the parsed object list is returned.  The prompt inputs do not
influence the modelled outcome. -/
def match_titles_batch (scanned_titles : List String)
    (sitemap_recipes : List Recipe) (outcome : LlmOutcome) :
    Except String (List RawMatch) :=
  match scanned_titles, sitemap_recipes, outcome with
  | _, _, .raises msg => .error msg
  | _, _, .parseFail => .ok []
  | _, _, .parsed ms => .ok ms

/-- The per-chunk index fix-up loop: object `j` of the parsed response
has its `index` key overwritten with the 1-based original position of
the `j`-th title of the chunk — but only if `j` is within range; the
object is appended to the results either way. -/
def fixIndicesFrom (batch_indices : List ℕ) (j : ℕ) :
    List RawMatch → List RawMatch
  | [] => []
  | m :: ms =>
    (if j < batch_indices.length then
      { m with index := some ((batch_indices.getD j 0 : ℤ) + 1) }
     else m) :: fixIndicesFrom batch_indices (j + 1) ms

/-- Index fix-up over a whole parsed response. -/
def fixIndices (batch_indices : List ℕ) (ms : List RawMatch) : List RawMatch :=
  fixIndicesFrom batch_indices 0 ms

/-- `combined_candidates`: candidates of all titles in a chunk pooled
into a dict keyed by URL (first-insertion order, later value wins). -/
def upsertByUrl (acc : List Recipe) (c : Recipe) : List Recipe :=
  if acc.any (fun r => r.url = c.url) then
    acc.map (fun r => if r.url = c.url then c else r)
  else acc ++ [c]

/-- The deduplicated candidate pool of one chunk. -/
def combinedCandidates (chunk : List (ℕ × String × List Recipe)) : List Recipe :=
  (chunk.map (fun t => t.2.2)).flatten.foldl upsertByUrl []

/-- The batch loop of the prefilter path of `match_all_titles`: chunks
are processed sequentially; the `k`-th collaborator call uses
`oracle k`.  Returns the accumulated match results and the log of calls
issued (the title list of each call).  A raising call is caught and
converted to per-title error entries; a parsed response goes through the
index fix-up. -/
def processChunks (oracle : ℕ → LlmOutcome) :
    ℕ → List (List (ℕ × String × List Recipe)) →
    List RawMatch × List (List String)
  | _, [] => ([], [])
  | k, chunk :: rest =>
    let batch_titles := chunk.map (fun t => t.2.1)
    let batch_indices := chunk.map (fun t => t.1)
    let res :=
      match match_titles_batch batch_titles (combinedCandidates chunk) (oracle k) with
      | .error e => chunk.map (fun t => errorMatchFor t.1 t.2.1 e)
      | .ok ms => fixIndices batch_indices ms
    let tail := processChunks oracle (k + 1) rest
    (res ++ tail.1, batch_titles :: tail.2)

/-- The batch loop of the non-prefilter path: every title batch is sent
to the collaborator with the full catalog; results are concatenated
verbatim; a raising call is NOT caught and aborts the run. -/
def processSimple (oracle : ℕ → LlmOutcome) (sitemap_recipes : List Recipe) :
    ℕ → List (List String) → Except String (List RawMatch) × List (List String)
  | _, [] => (.ok [], [])
  | k, batch :: rest =>
    match match_titles_batch batch sitemap_recipes (oracle k) with
    | .error e => (.error e, [batch])
    | .ok ms =>
      let tail := processSimple oracle sitemap_recipes (k + 1) rest
      ((tail.1).map (fun ms2 => ms ++ ms2), batch :: tail.2)

/-- Step 1 of the prefilter path: every title with its original position
and prefilter candidates. -/
def step1 (scanned_titles : List String) (sitemap_recipes : List Recipe) :
    List (ℕ × String × List Recipe) :=
  scanned_titles.enum.map (fun p => (p.1, p.2, prefilter_candidates p.2 sitemap_recipes 15))

/-- Titles whose prefilter found candidates (sent to the collaborator). -/
def titleCandidates (scanned_titles : List String) (sitemap_recipes : List Recipe) :
    List (ℕ × String × List Recipe) :=
  (step1 scanned_titles sitemap_recipes).filter (fun x => !x.2.2.isEmpty)

/-- Null results synthesized for titles whose prefilter found nothing. -/
def skippedMatches (scanned_titles : List String) (sitemap_recipes : List Recipe) :
    List RawMatch :=
  ((step1 scanned_titles sitemap_recipes).filter (fun x => x.2.2.isEmpty)).map
    (fun x => nullMatchFor x.1 x.2.1)

/-- The final ordering key: `x.get("index", 0)`. -/
def indexKey (m : RawMatch) : ℤ :=
  m.index.getD 0

/-- `match_all_titles(scanned_titles, sitemap_recipes, batch_size, ...)`.
When `use_prefilter` is set and the catalog is large (> 500 entries):
titles without candidates resolve immediately to null matches, the rest
are chunked by `batch_size`, each chunk is sent to the collaborator with
its pooled candidates, and all results are stable-sorted by the `index`
key.  Otherwise: the raw titles are chunked and each batch is sent with
the whole catalog, the responses concatenated unsorted.  The second
component is the log of collaborator calls issued (titles per call).
The `model` and `progress_callback` parameters do not affect the
returned data and are omitted. -/
def match_all_titles (scanned_titles : List String) (sitemap_recipes : List Recipe)
    (batch_size : ℕ) (oracle : ℕ → LlmOutcome) (use_prefilter : Bool) :
    Except String (List RawMatch) × List (List String) :=
  if use_prefilter && decide (500 < sitemap_recipes.length) then
    let chunks := chunkList batch_size (titleCandidates scanned_titles sitemap_recipes)
    let pc := processChunks oracle 0 chunks
    (.ok (sortAscBy indexKey (skippedMatches scanned_titles sitemap_recipes ++ pc.1)),
     pc.2)
  else
    processSimple oracle sitemap_recipes 0 (chunkList batch_size scanned_titles)

/-- The confidence histogram of `summarize_matches`. -/
structure ConfidenceHistogram where
  high : ℕ
  medium : ℕ
  low : ℕ
deriving DecidableEq

/-- The summary dict of `summarize_matches`. -/
structure MatchSummary where
  total : ℕ
  matched : ℕ
  unmatched : ℕ
  match_rate : String
  by_confidence : ConfidenceHistogram
deriving DecidableEq

/-- Python truthiness of `m.get("matched_url")`: `None` and the empty
string are falsy. -/
def truthyUrl (m : RawMatch) : Bool :=
  match m.matched_url with
  | some s => !(s = "")
  | none => false

/-- Round a rational to the nearest integer, ties to even — the rounding
of Python's `"%.1f"` formatting (modelled over exact rationals). -/
def roundHalfEven (q : ℚ) : ℤ :=
  let f := ⌊q⌋
  if q - f < 1/2 then f
  else if 1/2 < q - f then f + 1
  else if Even f then f else f + 1

/-- `f"{matched/total*100:.1f}%"`, modelled over exact rationals. -/
def formatRate (matched total : ℕ) : String :=
  let tenths := roundHalfEven ((1000 * matched : ℚ) / (total : ℚ))
  toString (tenths / 10) ++ "." ++ toString (tenths % 10) ++ "%"

/-- `summarize_matches`: totals, match rate (division guarded by
`total > 0`) and confidence histogram. -/
def summarize_matches (matches_list : List RawMatch) : MatchSummary :=
  let total := matches_list.length
  let matched := (matches_list.filter truthyUrl).length
  let unmatched := total - matched
  { total := total, matched := matched, unmatched := unmatched,
    match_rate := if 0 < total then formatRate matched total else "0%",
    by_confidence :=
      ⟨(matches_list.filter (fun m => m.confidence = some "high")).length,
       (matches_list.filter (fun m => m.confidence = some "medium")).length,
       (matches_list.filter (fun m => m.confidence = some "low")).length⟩ }

/-- A catalog with more than 500 entries (the prefilter-path threshold):
one real recipe and 500 entries with empty names. -/
def bigCatalog : List Recipe :=
  ⟨"alpha bravo", "u0"⟩ :: List.replicate 500 defRecipe

/-- A parsed collaborator object with a non-null URL but a null
confidence, as the collaborator is free to return. -/
def unuCoupledMatch : RawMatch :=
  { index := some 1, scanned := some "alpha bravo",
    matched_url := some "u0", matched_name := some "alpha bravo",
    confidence := none, error := none }

/-- A well-formed parsed collaborator object for the demo title. -/
def goodMatch : RawMatch :=
  { index := some 1, scanned := some "alpha bravo",
    matched_url := some "u0", matched_name := some "alpha bravo",
    confidence := some "high", error := none }

/-- A surplus parsed object beyond the number of titles in its chunk. -/
def ghostMatch : RawMatch :=
  { index := some 50, scanned := some "ghost title",
    matched_url := some "ux", matched_name := some "Ghost",
    confidence := some "low", error := none }

/-- A one-entry catalog (well under the 500-entry prefilter threshold). -/
def smallCatalog : List Recipe :=
  [⟨"Chicken Teriyaki", "u1"⟩]

/-- A parsed collaborator object resolving the empty-keyword title
`"hi"` to a match, as the collaborator is free to return. -/
def hiMatch : RawMatch :=
  { index := some 1, scanned := some "hi",
    matched_url := some "u1", matched_name := some "Chicken Teriyaki",
    confidence := some "high", error := none }

/-- A collaborator that always raises (transport failure). -/
def oracleRaise : ℕ → LlmOutcome := fun _ => .raises "boom"

/-- A collaborator whose every response parses to a single well-formed
object. -/
def oracleOneGood : ℕ → LlmOutcome := fun _ => .parsed [goodMatch]

/-- A collaborator whose every response parses to two objects — one more
than the one-title chunks it is used with. -/
def oracleTwo : ℕ → LlmOutcome := fun _ => .parsed [goodMatch, ghostMatch]

/-- First catalog object reference for the cache specification. -/
def catA : CatalogRef := ⟨0, smallCatalog⟩

/-- A distinct catalog object with equal entries. -/
def catB : CatalogRef := ⟨1, smallCatalog⟩

/-- The initial module state: nothing cached. -/
def initState : MatcherState := ⟨none, none⟩

/-- Whether a collaborator outcome is compatible with a chunk of `n`
titles: it raises, or it parses to exactly one object per title. -/
def goodOutcome : LlmOutcome → ℕ → Bool
  | .raises _, _ => true
  | .parseFail, _ => false
  | .parsed ms, n => ms.length == n

/-- Sanity check of the keyword extractor on a plain title. -/
theorem extract_keywords_sanity :
    extract_keywords "Chicken Teriyaki Bowl" = ["chicken", "teriyaki", "bowl"] := by
  decide

/-- Sanity check: branding noise and stop words normalize away. -/
theorem extract_keywords_noise_sanity :
    extract_keywords "Grab your Hello Fresh meal kit!" = [] := by decide

/-- Sanity check: words shorter than three characters are dropped. -/
theorem extract_keywords_short_sanity : extract_keywords "hi" = [] := by decide

/-- Sanity check of the F1 scoring arithmetic. -/
theorem score_candidate_sanity :
    score_candidate (extract_keywords "Chicken Teriyaki Bowl")
      "Chicken Teriyaki Bowl With Rice" = 6/7 := by decide

set_option maxRecDepth 10000

theorem insertAscBy_perm {α K : Type} [LinearOrder K] (key : α → K) (x : α) :
    ∀ l : List α, (insertAscBy key x l).Perm (x :: l)
  | [] => by simp [insertAscBy]
  | y :: ys => by
    by_cases h : key x < key y
    · simp [insertAscBy, h]
    · simp only [insertAscBy, if_neg h]
      exact ((insertAscBy_perm key x ys).cons y).trans (List.Perm.swap x y ys)

theorem sortAscBy_perm_aux {α K : Type} [LinearOrder K] (key : α → K) :
    ∀ (l acc : List α),
      (l.foldl (fun a x => insertAscBy key x a) acc).Perm (acc ++ l)
  | [], acc => by simp
  | x :: xs, acc => by
    simp only [List.foldl_cons]
    refine (sortAscBy_perm_aux key xs (insertAscBy key x acc)).trans ?_
    refine (List.Perm.append_right xs (insertAscBy_perm key x acc)).trans ?_
    exact List.perm_middle.symm

/-- The stable ascending sort is a permutation of its input. -/
theorem sortAscBy_perm {α K : Type} [LinearOrder K] (key : α → K) (l : List α) :
    (sortAscBy key l).Perm l := by
  simpa [sortAscBy] using sortAscBy_perm_aux key l []

theorem mem_insertAscBy {α K : Type} [LinearOrder K] (key : α → K) (x z : α)
    (l : List α) : z ∈ insertAscBy key x l ↔ z = x ∨ z ∈ l := by
  rw [(insertAscBy_perm key x l).mem_iff, List.mem_cons]

theorem insertAscBy_pairwise {α K : Type} [LinearOrder K] (key : α → K) (x : α) :
    ∀ {l : List α}, l.Pairwise (fun a b => key a ≤ key b) →
      (insertAscBy key x l).Pairwise (fun a b => key a ≤ key b)
  | [], _ => by simp [insertAscBy]
  | y :: ys, h => by
    rw [List.pairwise_cons] at h
    by_cases hxy : key x < key y
    · simp only [insertAscBy, if_pos hxy]
      exact List.Pairwise.cons
        (fun z hz => by
          rcases List.mem_cons.mp hz with rfl | hz
          · exact le_of_lt hxy
          · exact le_trans (le_of_lt hxy) (h.1 z hz))
        (List.Pairwise.cons h.1 h.2)
    · simp only [insertAscBy, if_neg hxy]
      refine List.Pairwise.cons ?_ (insertAscBy_pairwise key x h.2)
      intro z hz
      rcases (mem_insertAscBy key x z ys).mp hz with rfl | hz
      · exact le_of_not_lt hxy
      · exact h.1 z hz

theorem sortAscBy_pairwise_aux {α K : Type} [LinearOrder K] (key : α → K) :
    ∀ (l acc : List α), acc.Pairwise (fun a b => key a ≤ key b) →
      (l.foldl (fun a x => insertAscBy key x a) acc).Pairwise
        (fun a b => key a ≤ key b)
  | [], _, h => h
  | x :: xs, acc, h =>
    sortAscBy_pairwise_aux key xs (insertAscBy key x acc) (insertAscBy_pairwise key x h)

/-- The stable ascending sort yields a list with nondecreasing keys. -/
theorem sortAscBy_pairwise {α K : Type} [LinearOrder K] (key : α → K) (l : List α) :
    (sortAscBy key l).Pairwise (fun a b => key a ≤ key b) :=
  sortAscBy_pairwise_aux key l [] (List.Pairwise.nil)

theorem chunkListAux_flatten {α : Type} (bs : ℕ) (hbs : 0 < bs) :
    ∀ (fuel : ℕ) (l : List α), l.length ≤ fuel →
      (chunkListAux bs fuel l).flatten = l
  | 0, l, h => by
    have hl : l = [] := List.eq_nil_of_length_eq_zero (Nat.le_zero.mp h)
    simp [hl, chunkListAux]
  | fuel + 1, [], _ => by simp [chunkListAux]
  | fuel + 1, x :: xs, h => by
    simp only [chunkListAux, List.flatten_cons]
    rw [chunkListAux_flatten bs hbs fuel ((x :: xs).drop bs)
      (by
        simp only [List.length_cons] at h
        simp only [List.length_drop, List.length_cons]
        omega)]
    exact List.take_append_drop bs (x :: xs)

/-- With positive batch size, the chunks of a list flatten back to it. -/
theorem chunkList_flatten {α : Type} (bs : ℕ) (hbs : 0 < bs) (l : List α) :
    (chunkList bs l).flatten = l :=
  chunkListAux_flatten bs hbs l.length l le_rfl

theorem chunkListAux_subset {α : Type} (bs : ℕ) :
    ∀ (fuel : ℕ) (l c : List α), c ∈ chunkListAux bs fuel l → ∀ x ∈ c, x ∈ l
  | 0, _, c, hc => by simp [chunkListAux] at hc
  | _ + 1, [], c, hc => by simp [chunkListAux] at hc
  | fuel + 1, y :: ys, c, hc => by
    simp only [chunkListAux, List.mem_cons] at hc
    rcases hc with rfl | hc
    · exact fun x hx => List.take_subset bs (y :: ys) hx
    · exact fun x hx =>
        List.drop_subset bs (y :: ys) (chunkListAux_subset bs fuel _ c hc x hx)

/-- Every element of a chunk is an element of the chunked list. -/
theorem chunkList_subset {α : Type} (bs : ℕ) (l c : List α)
    (hc : c ∈ chunkList bs l) : ∀ x ∈ c, x ∈ l :=
  chunkListAux_subset bs l.length l c hc

theorem processChunks_log (oracle : ℕ → LlmOutcome) :
    ∀ (k : ℕ) (chs : List (List (ℕ × String × List Recipe))),
      (processChunks oracle k chs).2 = chs.map (fun ch => ch.map (fun t => t.2.1))
  | _, [] => rfl
  | k, ch :: rest => by
    simp only [processChunks, List.map_cons]
    rw [processChunks_log oracle (k + 1) rest]

theorem drop_getD_cons : ∀ (l : List ℕ) (j : ℕ), j < l.length →
    l.drop j = l.getD j 0 :: l.drop (j + 1)
  | x :: xs, 0, _ => rfl
  | x :: xs, j + 1, h => by
    simpa using drop_getD_cons xs j (by simpa using h)

theorem fixIndicesFrom_map_indexKey (bi : List ℕ) :
    ∀ (ms : List RawMatch) (j : ℕ), bi.length = j + ms.length →
      (fixIndicesFrom bi j ms).map indexKey =
        (bi.drop j).map (fun i : ℕ => (i : ℤ) + 1)
  | [], j, h => by
    simp only [List.length_nil, Nat.add_zero] at h
    simp [fixIndicesFrom, List.drop_eq_nil_of_le (le_of_eq h)]
  | m :: ms, j, h => by
    have hj : j < bi.length := by simp only [List.length_cons] at h; omega
    simp only [fixIndicesFrom, if_pos hj, List.map_cons]
    rw [fixIndicesFrom_map_indexKey bi ms (j + 1)
      (by simp only [List.length_cons] at h; omega)]
    rw [drop_getD_cons bi j hj]
    rfl

theorem fixIndicesFrom_mem_ge (bi : List ℕ) :
    ∀ (ms : List RawMatch) (j0 j : ℕ) (m : RawMatch), bi.length ≤ j0 + j →
      ms.get? j = some m → m ∈ fixIndicesFrom bi j0 ms
  | m' :: ms, j0, 0, m, hge, hm => by
    injection hm with hm
    subst hm
    simp only [fixIndicesFrom, if_neg (by omega : ¬ j0 < bi.length)]
    exact List.mem_cons_self _ _
  | m' :: ms, j0, j + 1, m, hge, hm => by
    simp only [List.get?] at hm
    exact List.mem_cons_of_mem _
      (fixIndicesFrom_mem_ge bi ms (j0 + 1) j m (by omega) hm)

theorem processChunks_keys (oracle : ℕ → LlmOutcome) :
    ∀ (chs : List (List (ℕ × String × List Recipe))) (k0 : ℕ),
      (∀ i, i < chs.length → goodOutcome (oracle (k0 + i)) ((chs.getD i []).length) = true) →
      (processChunks oracle k0 chs).1.map indexKey =
        chs.flatten.map (fun t => ((t.1 : ℤ) + 1))
  | [], _, _ => rfl
  | ch :: rest, k0, h => by
    have h0 := h 0 (by simp)
    rw [Nat.add_zero] at h0
    have htail := processChunks_keys oracle rest (k0 + 1)
      (fun i hi => by
        have hgi := h (i + 1) (by simpa using Nat.succ_lt_succ hi)
        have heq : k0 + (i + 1) = k0 + 1 + i := by omega
        rw [heq] at hgi
        exact hgi)
    simp only [processChunks, List.flatten_cons, List.map_append]
    cases ho : oracle k0 with
    | raises msg =>
      simp only [ho, match_titles_batch, List.map_map]
      rw [htail]
      rfl
    | parseFail =>
      rw [ho] at h0
      simp [goodOutcome] at h0
    | parsed ms =>
      rw [ho] at h0
      simp only [goodOutcome, beq_iff_eq] at h0
      simp only [ho, match_titles_batch]
      rw [htail]
      congr 1
      have h2 := fixIndicesFrom_map_indexKey (ch.map (fun t => t.1)) ms 0
        (by simpa using h0.symm)
      rw [List.drop_zero] at h2
      rw [fixIndices, h2, List.map_map]
      rfl

theorem processChunks_mem_raises (oracle : ℕ → LlmOutcome) :
    ∀ (chs : List (List (ℕ × String × List Recipe))) (k0 k : ℕ)
      (c : List (ℕ × String × List Recipe)) (msg : String),
      chs.get? k = some c → oracle (k0 + k) = .raises msg →
      ∀ t ∈ c, errorMatchFor t.1 t.2.1 msg ∈ (processChunks oracle k0 chs).1
  | ch :: rest, k0, 0, c, msg, hc, ho, t, ht => by
    injection hc with hc
    subst hc
    rw [Nat.add_zero] at ho
    simp only [processChunks, ho, match_titles_batch]
    exact List.mem_append_left _ (List.mem_map_of_mem _ ht)
  | ch :: rest, k0, k + 1, c, msg, hc, ho, t, ht => by
    simp only [List.get?] at hc
    have := processChunks_mem_raises oracle rest (k0 + 1) k c msg hc
      (by
        have heq : k0 + 1 + k = k0 + (k + 1) := by omega
        rw [heq]
        exact ho) t ht
    simp only [processChunks]
    exact List.mem_append_right _ this

theorem processChunks_mem_parsed_extra (oracle : ℕ → LlmOutcome) :
    ∀ (chs : List (List (ℕ × String × List Recipe))) (k0 k : ℕ)
      (c : List (ℕ × String × List Recipe)) (ms : List RawMatch) (j : ℕ)
      (m : RawMatch),
      chs.get? k = some c → oracle (k0 + k) = .parsed ms →
      c.length ≤ j → ms.get? j = some m →
      m ∈ (processChunks oracle k0 chs).1
  | ch :: rest, k0, 0, c, ms, j, m, hc, ho, hj, hm => by
    injection hc with hc
    subst hc
    rw [Nat.add_zero] at ho
    simp only [processChunks, ho, match_titles_batch]
    refine List.mem_append_left _ ?_
    exact fixIndicesFrom_mem_ge _ ms 0 j m (by simpa using hj) hm
  | ch :: rest, k0, k + 1, c, ms, j, m, hc, ho, hj, hm => by
    simp only [List.get?] at hc
    have := processChunks_mem_parsed_extra oracle rest (k0 + 1) k c ms j m hc
      (by
        have heq : k0 + 1 + k = k0 + (k + 1) := by omega
        rw [heq]
        exact ho) hj hm
    simp only [processChunks]
    exact List.mem_append_right _ this

theorem fixIndicesFrom_fields (bi : List ℕ) :
    ∀ (ms : List RawMatch) (j : ℕ) (m : RawMatch), m ∈ fixIndicesFrom bi j ms →
      ∃ m', m' ∈ ms ∧ m.matched_url = m'.matched_url ∧ m.confidence = m'.confidence
  | m' :: ms, j, m, hm => by
    simp only [fixIndicesFrom, List.mem_cons] at hm
    rcases hm with rfl | hm
    · refine ⟨m', List.mem_cons_self _ _, ?_⟩
      by_cases hj : j < bi.length <;> simp [hj]
    · obtain ⟨m'', hm'', h1, h2⟩ := fixIndicesFrom_fields bi ms (j + 1) m hm
      exact ⟨m'', List.mem_cons_of_mem _ hm'', h1, h2⟩

theorem processChunks_no_parsed_fields (oracle : ℕ → LlmOutcome)
    (h : ∀ k, (oracle k).isParsed = false) :
    ∀ (chs : List (List (ℕ × String × List Recipe))) (k0 : ℕ) (m : RawMatch),
      m ∈ (processChunks oracle k0 chs).1 →
      m.matched_url = none ∧ m.confidence = none
  | ch :: rest, k0, m, hm => by
    simp only [processChunks] at hm
    rcases List.mem_append.mp hm with hm | hm
    · cases ho : oracle k0 with
      | raises msg =>
        rw [ho] at hm
        simp only [match_titles_batch] at hm
        obtain ⟨t, _, rfl⟩ := List.mem_map.mp hm
        exact ⟨rfl, rfl⟩
      | parseFail =>
        rw [ho] at hm
        simp only [match_titles_batch, fixIndices] at hm
        simp [fixIndicesFrom] at hm
      | parsed ms =>
        have := h k0
        rw [ho] at this
        simp [LlmOutcome.isParsed] at this
    · exact processChunks_no_parsed_fields oracle h rest (k0 + 1) m hm

theorem mem_enumFrom_of_get? {α : Type} : ∀ (l : List α) (n i : ℕ) (x : α),
    l.get? i = some x → (n + i, x) ∈ l.enumFrom n
  | a :: l, n, 0, x, h => by
    injection h with h
    subst h
    simp [List.enumFrom]
  | a :: l, n, i + 1, x, h => by
    simp only [List.get?] at h
    have hmem := mem_enumFrom_of_get? l (n + 1) i x h
    have heq : n + (i + 1) = n + 1 + i := by omega
    rw [heq]
    exact List.mem_cons_of_mem _ hmem

theorem mem_enum_of_get? {α : Type} (l : List α) (i : ℕ) (x : α)
    (h : l.get? i = some x) : (i, x) ∈ l.enum := by
  have hmem := mem_enumFrom_of_get? l 0 i x h
  rw [Nat.zero_add] at hmem
  exact hmem

theorem prefilter_candidates_of_no_keywords (t : String) (rs : List Recipe)
    (maxc : ℕ) (hkw : extract_keywords t = []) :
    prefilter_candidates t rs maxc = [] := by
  simp [prefilter_candidates, prefilter_with_index, hkw]

theorem mem_skippedMatches_of_get? (ts : List String) (rs : List Recipe)
    (i : ℕ) (t : String) (hget : ts.get? i = some t)
    (hkw : extract_keywords t = []) :
    nullMatchFor i t ∈ skippedMatches ts rs := by
  have hmem : (i, t) ∈ ts.enum := mem_enum_of_get? ts i t hget
  have hx : (i, t, prefilter_candidates t rs 15) ∈ step1 ts rs :=
    List.mem_map_of_mem _ hmem
  rw [prefilter_candidates_of_no_keywords t rs 15 hkw] at hx
  exact List.mem_map_of_mem _ (List.mem_filter.mpr ⟨hx, by simp⟩)

theorem mem_titleCandidates_elim (ts : List String) (rs : List Recipe)
    (i : ℕ) (t : String) (cs : List Recipe)
    (hx : (i, t, cs) ∈ titleCandidates ts rs) :
    cs = prefilter_candidates t rs 15 ∧ cs ≠ [] := by
  rw [titleCandidates] at hx
  obtain ⟨hstep, hfilter⟩ := List.mem_filter.mp hx
  rw [step1] at hstep
  obtain ⟨p, _, hpx⟩ := List.mem_map.mp hstep
  obtain ⟨a, b⟩ := p
  simp only [Prod.mk.injEq] at hpx
  obtain ⟨_, h2, h3⟩ := hpx
  subst h2
  subst h3
  refine ⟨rfl, ?_⟩
  intro hnil
  rw [hnil] at hfilter
  simp at hfilter

theorem step1_keys (ts : List String) (rs : List Recipe) :
    (step1 ts rs).map (fun x => x.1) = List.range ts.length := by
  rw [step1, List.map_map]
  exact List.enum_map_fst ts

/-- In the prefilter path, `match_all_titles` returns the sorted
concatenation of the skipped null matches and the batch results. -/
theorem match_all_titles_prefilter_path (ts : List String) (rs : List Recipe)
    (bs : ℕ) (oracle : ℕ → LlmOutcome) (hrs : 500 < rs.length) :
    match_all_titles ts rs bs oracle true =
      (.ok (sortAscBy indexKey (skippedMatches ts rs ++
        (processChunks oracle 0 (chunkList bs (titleCandidates ts rs))).1)),
       (processChunks oracle 0 (chunkList bs (titleCandidates ts rs))).2) := by
  have hcond : (true && decide (500 < rs.length)) = true := by simp [hrs]
  rw [match_all_titles, if_pos hcond]

theorem result_keys_perm (ts : List String) (rs : List Recipe) (bs : ℕ)
    (oracle : ℕ → LlmOutcome) (hbs : 0 < bs)
    (hgood : ∀ k, k < (chunkList bs (titleCandidates ts rs)).length →
      goodOutcome (oracle k)
        (((chunkList bs (titleCandidates ts rs)).getD k []).length) = true) :
    ((skippedMatches ts rs ++
      (processChunks oracle 0 (chunkList bs (titleCandidates ts rs))).1).map
        indexKey).Perm
      ((List.range ts.length).map (fun i : ℕ => (i : ℤ) + 1)) := by
  have hpc := processChunks_keys oracle (chunkList bs (titleCandidates ts rs)) 0
    (fun i hi => by
      have := hgood i hi
      rwa [Nat.zero_add])
  rw [chunkList_flatten bs hbs (titleCandidates ts rs)] at hpc
  have hskip : (skippedMatches ts rs).map indexKey =
      ((step1 ts rs).filter (fun x => x.2.2.isEmpty)).map
        (fun x => ((x.1 : ℤ) + 1)) := by
    rw [skippedMatches, List.map_map]
    rfl
  have htc : (titleCandidates ts rs).map (fun t => ((t.1 : ℤ) + 1)) =
      ((step1 ts rs).filter (fun x => !x.2.2.isEmpty)).map
        (fun x => ((x.1 : ℤ) + 1)) := rfl
  rw [List.map_append, hskip, hpc, htc, ← List.map_append]
  refine ((List.filter_append_perm (fun x => x.2.2.isEmpty) (step1 ts rs)).map
    (fun x => ((x.1 : ℤ) + 1))).trans ?_
  have hcomp : (step1 ts rs).map (fun x => ((x.1 : ℤ) + 1)) =
      ((step1 ts rs).map (fun x => x.1)).map (fun i : ℕ => (i : ℤ) + 1) := by
    rw [List.map_map]
    rfl
  rw [hcomp, step1_keys]

/-- Claim C1 (amended): in the prefilter path, when every dispatched
chunk's collaborator outcome either raises or parses to exactly one
object per title sent, `match_all_titles` returns exactly one result per
input title, and after the final sort the 1-based `index` keys are
exactly `1, ..., N` in strictly increasing order (one per input
position `0..N-1`). -/
theorem match_all_titles_order_preserved (ts : List String) (rs : List Recipe)
    (bs : ℕ) (oracle : ℕ → LlmOutcome) (hbs : 0 < bs) (hrs : 500 < rs.length)
    (hgood : ∀ k, k < (chunkList bs (titleCandidates ts rs)).length →
      goodOutcome (oracle k)
        (((chunkList bs (titleCandidates ts rs)).getD k []).length) = true) :
    ∃ res, (match_all_titles ts rs bs oracle true).1 = .ok res ∧
      res.length = ts.length ∧
      res.map indexKey = (List.range ts.length).map (fun i : ℕ => (i : ℤ) + 1) := by
  refine ⟨sortAscBy indexKey (skippedMatches ts rs ++
      (processChunks oracle 0 (chunkList bs (titleCandidates ts rs))).1), ?_, ?_, ?_⟩
  · rw [match_all_titles_prefilter_path ts rs bs oracle hrs]
  · have hkeys : (sortAscBy indexKey (skippedMatches ts rs ++
        (processChunks oracle 0 (chunkList bs (titleCandidates ts rs))).1)).map
          indexKey =
        (List.range ts.length).map (fun i : ℕ => (i : ℤ) + 1) := by
      refine List.eq_of_perm_of_sorted
        (((sortAscBy_perm indexKey _).map indexKey).trans
          (result_keys_perm ts rs bs oracle hbs hgood))
        (List.Pairwise.map indexKey (fun _ _ h => h) (sortAscBy_pairwise indexKey _))
        ?_
      refine List.Pairwise.map _ (fun a b hab => ?_) (List.pairwise_lt_range ts.length)
      omega
    have := congrArg List.length hkeys
    simpa using this
  · refine List.eq_of_perm_of_sorted
      (((sortAscBy_perm indexKey _).map indexKey).trans
        (result_keys_perm ts rs bs oracle hbs hgood))
      (List.Pairwise.map indexKey (fun _ _ h => h) (sortAscBy_pairwise indexKey _))
      ?_
    refine List.Pairwise.map _ (fun a b hab => ?_) (List.pairwise_lt_range ts.length)
    omega

/-- Claim C2 (amended): in the prefilter path, a chunk whose collaborator
call raises never aborts the run — the run still returns a result list —
and every title of that chunk yields a `MatchResult` carrying the raised
error string.  (A chunk whose response merely fails JSON parsing instead
contributes no results at all for its titles; see the counterexample.) -/
theorem raising_chunk_yields_error_entries (ts : List String) (rs : List Recipe)
    (bs : ℕ) (oracle : ℕ → LlmOutcome) (k : ℕ)
    (c : List (ℕ × String × List Recipe)) (msg : String)
    (hrs : 500 < rs.length)
    (hc : (chunkList bs (titleCandidates ts rs)).get? k = some c)
    (ho : oracle k = .raises msg) :
    ∃ res, (match_all_titles ts rs bs oracle true).1 = .ok res ∧
      ∀ t ∈ c, errorMatchFor t.1 t.2.1 msg ∈ res := by
  refine ⟨_, by rw [match_all_titles_prefilter_path ts rs bs oracle hrs], ?_⟩
  intro t ht
  have hmem := processChunks_mem_raises oracle
    (chunkList bs (titleCandidates ts rs)) 0 k c msg hc (by rwa [Nat.zero_add]) t ht
  exact ((sortAscBy_perm indexKey _).mem_iff).mpr (List.mem_append_right _ hmem)

/-- Claim C3 (amended): in the prefilter path, a query title whose
normalized form yields an empty keyword set resolves to a `MatchResult`
with null `matched_url` and null `confidence`, and that title is never
included in any call issued to the text-completion collaborator.  (On
the non-prefilter path — small catalog or prefiltering disabled — every
title is sent to the collaborator; see the counterexample.) -/
theorem empty_keyword_title_skipped (ts : List String) (rs : List Recipe)
    (bs : ℕ) (oracle : ℕ → LlmOutcome) (i : ℕ) (t : String)
    (hrs : 500 < rs.length) (hget : ts.get? i = some t)
    (hkw : extract_keywords t = []) :
    (∃ res, (match_all_titles ts rs bs oracle true).1 = .ok res ∧
       nullMatchFor i t ∈ res) ∧
    ∀ call ∈ (match_all_titles ts rs bs oracle true).2, t ∉ call := by
  constructor
  · refine ⟨_, by rw [match_all_titles_prefilter_path ts rs bs oracle hrs], ?_⟩
    exact ((sortAscBy_perm indexKey _).mem_iff).mpr
      (List.mem_append_left _ (mem_skippedMatches_of_get? ts rs i t hget hkw))
  · intro call hcall htin
    rw [match_all_titles_prefilter_path ts rs bs oracle hrs] at hcall
    simp only [processChunks_log] at hcall
    obtain ⟨ch, hch, rfl⟩ := List.mem_map.mp hcall
    obtain ⟨x, hx, hxt⟩ := List.mem_map.mp htin
    have hxtc := chunkList_subset bs (titleCandidates ts rs) ch hch x hx
    obtain ⟨a, b, cs⟩ := x
    simp only at hxt
    subst hxt
    obtain ⟨hcs, hne⟩ := mem_titleCandidates_elim ts rs a b cs hxtc
    rw [prefilter_candidates_of_no_keywords b rs 15 hkw] at hcs
    exact hne hcs

/-- Claim C4 (amended): every `MatchResult` synthesized locally by
`match_all_titles` — a no-candidate skip or a chunk-failure entry — has
both `matched_url` and `confidence` null, so the nullity coupling holds
for them; in particular, whenever no collaborator outcome is a parsed
response, every result of the prefilter path satisfies the coupling.
(Objects parsed from collaborator output are appended with whatever
field combination the collaborator returned; see the counterexample.) -/
theorem local_results_null_coupling (ts : List String) (rs : List Recipe)
    (bs : ℕ) (oracle : ℕ → LlmOutcome) (hrs : 500 < rs.length)
    (hor : ∀ k, (oracle k).isParsed = false) :
    ∀ res, (match_all_titles ts rs bs oracle true).1 = .ok res →
      ∀ m ∈ res, m.matched_url = none ∧ m.confidence = none := by
  intro res hres m hm
  rw [match_all_titles_prefilter_path ts rs bs oracle hrs] at hres
  have hres' : sortAscBy indexKey (skippedMatches ts rs ++
      (processChunks oracle 0 (chunkList bs (titleCandidates ts rs))).1) = res :=
    Except.ok.inj hres
  rw [← hres'] at hm
  rcases List.mem_append.mp ((sortAscBy_perm indexKey _).mem_iff.mp hm) with hm | hm
  · obtain ⟨x, _, rfl⟩ := List.mem_map.mp hm
    exact ⟨rfl, rfl⟩
  · exact processChunks_no_parsed_fields oracle hor _ 0 m hm

/-- Claim C5 (amended): a parsed collaborator object whose chunk-local
position is out of range for its chunk is NOT dropped: it skips only the
index fix-up and is still appended, unchanged, to the final results. -/
theorem out_of_range_object_appended (ts : List String) (rs : List Recipe)
    (bs : ℕ) (oracle : ℕ → LlmOutcome) (k j : ℕ)
    (c : List (ℕ × String × List Recipe)) (ms : List RawMatch) (m : RawMatch)
    (hrs : 500 < rs.length)
    (hc : (chunkList bs (titleCandidates ts rs)).get? k = some c)
    (ho : oracle k = .parsed ms)
    (hj : c.length ≤ j) (hm : ms.get? j = some m) :
    ∃ res, (match_all_titles ts rs bs oracle true).1 = .ok res ∧ m ∈ res := by
  refine ⟨_, by rw [match_all_titles_prefilter_path ts rs bs oracle hrs], ?_⟩
  have hmem := processChunks_mem_parsed_extra oracle
    (chunkList bs (titleCandidates ts rs)) 0 k c ms j m hc
    (by rwa [Nat.zero_add]) hj hm
  exact ((sortAscBy_perm indexKey _).mem_iff).mpr (List.mem_append_right _ hmem)

theorem mem_build_index_pure (rs : List Recipe) (kw : String) (i : ℕ) :
    i ∈ build_index_pure rs kw ↔
      i < rs.length ∧
        (extract_keywords (rs.getD i defRecipe).name).contains kw = true := by
  simp [build_index_pure, List.mem_filter, List.mem_range]

theorem filter_contains_length_le (s c : List String) (hs : s.Nodup) :
    (s.filter (fun w => c.contains w)).length ≤ c.length := by
  have hnd : (s.filter (fun w => c.contains w)).Nodup := hs.filter _
  have hsub : ∀ w ∈ s.filter (fun w => c.contains w), w ∈ c := by
    intro w hw
    have hcw := List.of_mem_filter hw
    simpa using hcw
  calc (s.filter (fun w => c.contains w)).length
      = (s.filter (fun w => c.contains w)).toFinset.card :=
        (List.toFinset_card_of_nodup hnd).symm
    _ ≤ c.toFinset.card := Finset.card_le_card (fun w hw => by
        rw [List.mem_toFinset] at hw ⊢
        exact hsub w hw)
    _ ≤ c.length := List.toFinset_card_le c

/-- Claim C8: `score_candidate` always lies in `[0, 1]`; it is `0` when
either keyword set is empty or when precision + recall is `0`, and is
otherwise the harmonic mean `2·p·r/(p + r)` of
`p = |intersection|/|queryKeywords|` and
`r = |intersection|/|candidateKeywords|`. -/
theorem score_candidate_spec (s : List String) (name : String) (hs : s.Nodup) :
    0 ≤ score_candidate s name ∧ score_candidate s name ≤ 1 ∧
    ((s = [] ∨ extract_keywords name = []) → score_candidate s name = 0) ∧
    (s ≠ [] → extract_keywords name ≠ [] →
      score_candidate s name =
        (if ((s.filter (fun w => (extract_keywords name).contains w)).length : ℚ) /
              (s.length : ℚ) +
            ((s.filter (fun w => (extract_keywords name).contains w)).length : ℚ) /
              ((extract_keywords name).length : ℚ) = 0 then 0
         else 2 * ((((s.filter (fun w => (extract_keywords name).contains w)).length : ℚ) /
                (s.length : ℚ)) *
              (((s.filter (fun w => (extract_keywords name).contains w)).length : ℚ) /
                ((extract_keywords name).length : ℚ))) /
            ((((s.filter (fun w => (extract_keywords name).contains w)).length : ℚ) /
                (s.length : ℚ)) +
              (((s.filter (fun w => (extract_keywords name).contains w)).length : ℚ) /
                ((extract_keywords name).length : ℚ))))) := by
  by_cases h1 : s.isEmpty
  · have hnil : s = [] := List.isEmpty_iff.mp h1
    have h0 : score_candidate s name = 0 := by
      rw [score_candidate, if_pos (by simp [h1])]
    exact ⟨le_of_eq h0.symm, by rw [h0]; norm_num, fun _ => h0,
      fun hne _ => absurd hnil hne⟩
  by_cases h2 : (extract_keywords name).isEmpty
  · have hnil : extract_keywords name = [] := List.isEmpty_iff.mp h2
    have h0 : score_candidate s name = 0 := by
      rw [score_candidate, if_pos (by simp [h2])]
    exact ⟨le_of_eq h0.symm, by rw [h0]; norm_num, fun _ => h0,
      fun _ hne => absurd hnil hne⟩
  have hsnil : s ≠ [] := fun h => h1 (by simp [h])
  have hcnil : extract_keywords name ≠ [] := fun h => h2 (by simp [h])
  set m : ℚ := ((s.filter (fun w => (extract_keywords name).contains w)).length : ℚ)
    with hmdef
  set p : ℚ := m / (s.length : ℚ) with hpdef
  set r : ℚ := m / ((extract_keywords name).length : ℚ) with hrdef
  have hform : score_candidate s name =
      if p + r = 0 then 0 else 2 * (p * r) / (p + r) := by
    rw [score_candidate, if_neg (by simp [h1, h2])]
  clear_value m p r
  have hmnn : 0 ≤ m := by rw [hmdef]; exact Nat.cast_nonneg _
  have hpnn : 0 ≤ p := by
    rw [hpdef]
    exact div_nonneg hmnn (Nat.cast_nonneg _)
  have hrnn : 0 ≤ r := by
    rw [hrdef]
    exact div_nonneg hmnn (Nat.cast_nonneg _)
  have hslen : 0 < (s.length : ℚ) := by
    exact_mod_cast List.length_pos.mpr hsnil
  have hclen : 0 < ((extract_keywords name).length : ℚ) := by
    exact_mod_cast List.length_pos.mpr hcnil
  have hp1 : p ≤ 1 := by
    rw [hpdef, div_le_one hslen, hmdef]
    exact_mod_cast List.length_filter_le _ _
  have hr1 : r ≤ 1 := by
    rw [hrdef, div_le_one hclen, hmdef]
    exact_mod_cast filter_contains_length_le s (extract_keywords name) hs
  have hbounds : 0 ≤ score_candidate s name ∧ score_candidate s name ≤ 1 := by
    rw [hform]
    by_cases hpr : p + r = 0
    · rw [if_pos hpr]
      norm_num
    · rw [if_neg hpr]
      have hprpos : 0 < p + r :=
        lt_of_le_of_ne (add_nonneg hpnn hrnn) (Ne.symm hpr)
      constructor
      · exact div_nonneg
          (mul_nonneg (by norm_num) (mul_nonneg hpnn hrnn)) (le_of_lt hprpos)
      · rw [div_le_one hprpos]
        have hx1 : p * r ≤ p := mul_le_of_le_one_right hpnn hr1
        have hx2 : p * r ≤ r := mul_le_of_le_one_left hrnn hp1
        linarith
  exact ⟨hbounds.1, hbounds.2, fun h => absurd h (by simp [hsnil, hcnil]),
    fun _ _ => hform⟩

/-- Claim C9: the keyword-index cache is identity-based and index
construction is deterministic and idempotent.  After a first (rebuilding)
call on catalog object `cat`: a second call on the same object hits the
cache and returns the identical index; a call on an equal-but-distinct
object `cat'` misses the cache, rebuilds, caches the new reference, and
(determinism) returns an index equal to the first, so prefilter results
agree for every query. -/
theorem build_keyword_index_cache_spec (st : MatcherState) (cat cat' : CatalogRef)
    (hfresh : st._indexed_ref ≠ some cat.ref) :
    (build_keyword_index st cat).1 = build_index_pure cat.entries ∧
    (build_keyword_index st cat).2 =
      ⟨some (build_index_pure cat.entries), some cat.ref⟩ ∧
    build_keyword_index (build_keyword_index st cat).2 cat =
      ((build_keyword_index st cat).1, (build_keyword_index st cat).2) ∧
    (cat'.ref ≠ cat.ref → cat'.entries = cat.entries →
      (build_keyword_index (build_keyword_index st cat).2 cat').1 =
          (build_keyword_index st cat).1 ∧
        (build_keyword_index (build_keyword_index st cat).2 cat').2 =
          ⟨some (build_index_pure cat'.entries), some cat'.ref⟩ ∧
        ∀ (q : String) (maxc : ℕ),
          prefilter_with_index
              (build_keyword_index (build_keyword_index st cat).2 cat').1
              q cat'.entries maxc =
            prefilter_with_index (build_keyword_index st cat).1 q cat.entries
              maxc) := by
  have h1 : build_keyword_index st cat =
      (build_index_pure cat.entries,
       ⟨some (build_index_pure cat.entries), some cat.ref⟩) := by
    rw [build_keyword_index, if_neg hfresh]
  refine ⟨by rw [h1], by rw [h1], ?_, ?_⟩
  · rw [h1]
    rw [build_keyword_index, if_pos rfl]
  · intro hne hent
    have h2 : build_keyword_index (build_keyword_index st cat).2 cat' =
        (build_index_pure cat'.entries,
         ⟨some (build_index_pure cat'.entries), some cat'.ref⟩) := by
      rw [h1, build_keyword_index, if_neg ?_]
      intro hcontra
      exact hne (Option.some.inj hcontra).symm
    refine ⟨?_, by rw [h2], ?_⟩
    · rw [h2, h1, hent]
    · intro q maxc
      rw [h2, h1, hent]

/-- Claim C10: `summarize_matches` is total, its division is guarded by
the `total > 0` check, and on the empty list it returns zero counts, the
rate string `"0%"` and an all-zero confidence histogram. -/
theorem summarize_matches_empty_guarded (ms : List RawMatch) :
    summarize_matches [] = ⟨0, 0, 0, "0%", ⟨0, 0, 0⟩⟩ ∧
    (summarize_matches ms).total = ms.length ∧
    (summarize_matches ms).matched + (summarize_matches ms).unmatched =
      ms.length ∧
    (summarize_matches ms).match_rate =
      (if 0 < ms.length then
        formatRate (summarize_matches ms).matched ms.length else "0%") := by
  refine ⟨rfl, rfl, ?_, rfl⟩
  have hle := List.length_filter_le truthyUrl ms
  simp only [summarize_matches]
  omega

theorem step1_eval_one :
    step1 ["alpha bravo"] bigCatalog =
      [(0, "alpha bravo", [⟨"alpha bravo", "u0"⟩])] := by decide

theorem step1_eval_two :
    step1 ["hi", "alpha bravo"] bigCatalog =
      [(0, "hi", []), (1, "alpha bravo", [⟨"alpha bravo", "u0"⟩])] := by decide

theorem step1_eval_hi :
    step1 ["hi"] bigCatalog = [(0, "hi", [])] := by decide

theorem titleCandidates_eval_one :
    titleCandidates ["alpha bravo"] bigCatalog =
      [(0, "alpha bravo", [⟨"alpha bravo", "u0"⟩])] := by
  rw [titleCandidates, step1_eval_one]
  decide

theorem skippedMatches_eval_one :
    skippedMatches ["alpha bravo"] bigCatalog = [] := by
  rw [skippedMatches, step1_eval_one]
  decide

theorem titleCandidates_eval_two :
    titleCandidates ["hi", "alpha bravo"] bigCatalog =
      [(1, "alpha bravo", [⟨"alpha bravo", "u0"⟩])] := by
  rw [titleCandidates, step1_eval_two]
  decide

/-- Claim C1 counterexample: a single input title (with prefilter
candidates) whose chunk's collaborator response fails JSON parsing
yields an EMPTY final result list — zero `MatchResult`s for one input
title, so the output neither has one result per title nor covers the
input positions. -/
theorem parse_failure_loses_title :
    (match_all_titles ["alpha bravo"] bigCatalog 10
      (fun _ => .parseFail) true).1 = .ok [] ∧
    (["alpha bravo"] : List String).length = 1 := by
  constructor
  · rw [match_all_titles_prefilter_path ["alpha bravo"] bigCatalog 10
      (fun _ => .parseFail) (by decide)]
    rw [titleCandidates_eval_one, skippedMatches_eval_one]
    decide
  · rfl

/-- Claim C2 counterexample: a chunk whose collaborator response fails
JSON parsing (after code-fence stripping) was issued — the call log
shows it — yet NO `MatchResult` carrying the error is synthesized for
its title: the whole run returns an empty result list, refuting
"every title in that chunk yields a MatchResult carrying the error
detail". -/
theorem parse_failure_yields_no_error_entries :
    match_all_titles ["alpha bravo"] bigCatalog 10
      (fun _ => .parseFail) true = (.ok [], [["alpha bravo"]]) := by
  rw [match_all_titles_prefilter_path ["alpha bravo"] bigCatalog 10
    (fun _ => .parseFail) (by decide)]
  rw [titleCandidates_eval_one, skippedMatches_eval_one]
  decide

/-- Claim C3 counterexample: with a one-entry catalog (the non-prefilter
path, taken for every catalog of at most 500 entries even with
`use_prefilter` left at its default), the title `"hi"` — whose
normalized form has an empty keyword set — IS sent to the collaborator
(the call log contains it) and resolves to whatever the collaborator
returned, here a non-null match. -/
theorem empty_keyword_title_sent :
    extract_keywords "hi" = [] ∧
    match_all_titles ["hi"] smallCatalog 10
      (fun _ => .parsed [hiMatch]) true = (.ok [hiMatch], [["hi"]]) ∧
    hiMatch.matched_url = some "u1" := by decide

/-- Claim C4 counterexample: a parsed collaborator object with a
non-null `matched_url` but a null `confidence` is appended to the final
results unchanged (apart from the index fix-up), violating the
"confidence is null iff matchedUrl is null" coupling. -/
theorem collaborator_nullity_passthrough :
    (match_all_titles ["alpha bravo"] bigCatalog 10
      (fun _ => .parsed [unuCoupledMatch]) true).1 =
      .ok [{ unuCoupledMatch with index := some 1 }] ∧
    unuCoupledMatch.matched_url ≠ none ∧ unuCoupledMatch.confidence = none := by
  refine ⟨?_, by decide, rfl⟩
  rw [match_all_titles_prefilter_path ["alpha bravo"] bigCatalog 10
    (fun _ => .parsed [unuCoupledMatch]) (by decide)]
  rw [titleCandidates_eval_one, skippedMatches_eval_one]
  decide

/-- Claim C5 counterexample: a chunk of one title whose response parses
to TWO objects: the second object's chunk-local index (1) is out of the
expected range, yet the object is appended to the final results with its
collaborator-supplied index untouched — it is not dropped. -/
theorem out_of_range_object_retained :
    (match_all_titles ["alpha bravo"] bigCatalog 10 oracleTwo true).1 =
      .ok [{ goodMatch with index := some 1 }, ghostMatch] ∧
    ghostMatch.index = some 50 := by
  refine ⟨?_, rfl⟩
  rw [match_all_titles_prefilter_path ["alpha bravo"] bigCatalog 10
    oracleTwo (by decide)]
  rw [titleCandidates_eval_one, skippedMatches_eval_one]
  decide

/-- Claim C1 witness: a concrete prefilter-path run (one skipped title,
one batched title, a well-formed one-object response) satisfying all
hypotheses of the amended order-preservation theorem. -/
theorem match_all_titles_order_preserved_witness :
    (0 < 10 ∧ 500 < bigCatalog.length ∧
      (∀ k, k < (chunkList 10 (titleCandidates ["hi", "alpha bravo"] bigCatalog)).length →
        goodOutcome (oracleOneGood k)
          (((chunkList 10 (titleCandidates ["hi", "alpha bravo"] bigCatalog)).getD
            k []).length) = true)) ∧
    (∃ res, (match_all_titles ["hi", "alpha bravo"] bigCatalog 10
        oracleOneGood true).1 = .ok res ∧
      res.length = (["hi", "alpha bravo"] : List String).length ∧
      res.map indexKey =
        (List.range (["hi", "alpha bravo"] : List String).length).map
          (fun i : ℕ => (i : ℤ) + 1)) :=
  ⟨⟨by decide, by decide, by rw [titleCandidates_eval_two]; decide⟩,
   match_all_titles_order_preserved ["hi", "alpha bravo"] bigCatalog 10
     oracleOneGood (by decide) (by decide)
     (by rw [titleCandidates_eval_two]; decide)⟩

/-- Claim C2 witness: a concrete raising chunk whose title resolves to
an error-carrying `MatchResult` while the run still returns a result
list. -/
theorem raising_chunk_yields_error_entries_witness :
    (500 < bigCatalog.length ∧
     (chunkList 10 (titleCandidates ["alpha bravo"] bigCatalog)).get? 0 =
       some [((0 : ℕ), "alpha bravo", [(⟨"alpha bravo", "u0"⟩ : Recipe)])] ∧
     oracleRaise 0 = .raises "boom") ∧
    (∃ res, (match_all_titles ["alpha bravo"] bigCatalog 10
        oracleRaise true).1 = .ok res ∧
      ∀ t ∈ [((0 : ℕ), "alpha bravo", [(⟨"alpha bravo", "u0"⟩ : Recipe)])],
        errorMatchFor t.1 t.2.1 "boom" ∈ res) :=
  ⟨⟨by decide, by rw [titleCandidates_eval_one]; decide, rfl⟩,
   raising_chunk_yields_error_entries ["alpha bravo"] bigCatalog 10 oracleRaise 0
     [((0 : ℕ), "alpha bravo", [⟨"alpha bravo", "u0"⟩])] "boom" (by decide)
     (by rw [titleCandidates_eval_one]; decide) rfl⟩

/-- Claim C3 witness: a concrete prefilter-path run in which the
empty-keyword title `"hi"` resolves to the null match and appears in no
collaborator call. -/
theorem empty_keyword_title_skipped_witness :
    (500 < bigCatalog.length ∧ (["hi"] : List String).get? 0 = some "hi" ∧
     extract_keywords "hi" = []) ∧
    ((∃ res, (match_all_titles ["hi"] bigCatalog 10 oracleRaise true).1 =
        .ok res ∧ nullMatchFor 0 "hi" ∈ res) ∧
     ∀ call ∈ (match_all_titles ["hi"] bigCatalog 10 oracleRaise true).2,
       "hi" ∉ call) :=
  ⟨⟨by decide, rfl, by decide⟩,
   empty_keyword_title_skipped ["hi"] bigCatalog 10 oracleRaise 0 "hi"
     (by decide) rfl (by decide)⟩

/-- Claim C4 witness: with every collaborator call raising, every result
of a concrete prefilter-path run has both fields null (the coupling
holds on locally synthesized results). -/
theorem local_results_null_coupling_witness :
    (500 < bigCatalog.length ∧ (∀ k, (oracleRaise k).isParsed = false)) ∧
    (∀ res, (match_all_titles ["alpha bravo"] bigCatalog 10
        oracleRaise true).1 = .ok res →
      ∀ m ∈ res, m.matched_url = none ∧ m.confidence = none) :=
  ⟨⟨by decide, fun _ => rfl⟩,
   local_results_null_coupling ["alpha bravo"] bigCatalog 10 oracleRaise
     (by decide) (fun _ => rfl)⟩

/-- Claim C5 witness: a concrete run in which the surplus parsed object
(chunk-local position 1 in a one-title chunk) ends up in the final
results. -/
theorem out_of_range_object_appended_witness :
    (500 < bigCatalog.length ∧
     (chunkList 10 (titleCandidates ["alpha bravo"] bigCatalog)).get? 0 =
       some [((0 : ℕ), "alpha bravo", [(⟨"alpha bravo", "u0"⟩ : Recipe)])] ∧
     oracleTwo 0 = .parsed [goodMatch, ghostMatch] ∧
     ([((0 : ℕ), "alpha bravo", [(⟨"alpha bravo", "u0"⟩ : Recipe)])]).length ≤ 1 ∧
     [goodMatch, ghostMatch].get? 1 = some ghostMatch) ∧
    (∃ res, (match_all_titles ["alpha bravo"] bigCatalog 10
        oracleTwo true).1 = .ok res ∧ ghostMatch ∈ res) :=
  ⟨⟨by decide, by rw [titleCandidates_eval_one]; decide, rfl, by decide, rfl⟩,
   out_of_range_object_appended ["alpha bravo"] bigCatalog 10 oracleTwo 0 1
     [((0 : ℕ), "alpha bravo", [⟨"alpha bravo", "u0"⟩])] [goodMatch, ghostMatch]
     ghostMatch (by decide) (by rw [titleCandidates_eval_one]; decide) rfl
     (by decide) rfl⟩

/-- Claim C8 witness: the score specification instantiated at a concrete
two-keyword set and candidate name, with the `Nodup` hypothesis
discharged. -/
theorem score_candidate_spec_witness :
    (["alpha", "cargo"] : List String).Nodup ∧
    (0 ≤ score_candidate ["alpha", "cargo"] "alpha delta" ∧
     score_candidate ["alpha", "cargo"] "alpha delta" ≤ 1) :=
  ⟨by decide,
   (score_candidate_spec ["alpha", "cargo"] "alpha delta" (by decide)).1,
   (score_candidate_spec ["alpha", "cargo"] "alpha delta" (by decide)).2.1⟩

/-- Claim C9 witness: starting from the empty cache, a first call on
catalog object `catA` caches it, a second call on the same object hits
the cache, and a call on the equal-but-distinct object `catB` rebuilds
yet yields an equal index. -/
theorem build_keyword_index_cache_spec_witness :
    (initState._indexed_ref ≠ some catA.ref ∧ catB.ref ≠ catA.ref ∧
     catB.entries = catA.entries) ∧
    ((build_keyword_index initState catA).2 =
       ⟨some (build_index_pure catA.entries), some catA.ref⟩ ∧
     build_keyword_index (build_keyword_index initState catA).2 catA =
       ((build_keyword_index initState catA).1,
        (build_keyword_index initState catA).2) ∧
     (build_keyword_index (build_keyword_index initState catA).2 catB).1 =
       (build_keyword_index initState catA).1) :=
  ⟨⟨by decide, by decide, rfl⟩,
   (build_keyword_index_cache_spec initState catA catB (by decide)).2.1,
   (build_keyword_index_cache_spec initState catA catB (by decide)).2.2.1,
   ((build_keyword_index_cache_spec initState catA catB (by decide)).2.2.2
     (by decide) rfl).1⟩




